import Mathlib

/-!
Verification of the BookVoyage reading-list program (ReadingListProgram.py).

The catalog and review tables are modelled as Lists of structures whose
fields are `Option`-valued where the pandas column may hold NaN.  Pandas
comparison semantics are kept: a comparison of NaN with a number is false.
Text handling (regex word boundaries, case folding) is modelled over ASCII:
a word character is an ASCII alphanumeric or an underscore, and case folding
maps only the letters A-Z.
-/

namespace BookVoyage

/-! ## Characters: word characters and ASCII case folding -/

/-- A word character, as used by the word boundary of the masking regex
(modelled over ASCII: alphanumerics and the underscore). -/
def isWordChar (c : Char) : Bool := c.isAlphanum || c == '_'

/-- ASCII case folding: the mapping applied by the IGNORECASE flag of the
profanity pattern (modelled over the letters A-Z). -/
def lowerCh (c : Char) : Char :=
  if 'A' ≤ c ∧ c ≤ 'Z' then Char.ofNat (c.toNat + 32) else c

theorem isUpper_of {c : Char} (h1 : 'A' ≤ c) (h2 : c ≤ 'Z') : c.isUpper = true := by
  simp only [Char.isUpper, Bool.and_eq_true, decide_eq_true_eq]
  exact ⟨Char.le_def.mp h1, Char.le_def.mp h2⟩

theorem isLower_of {c : Char} (h1 : 'a' ≤ c) (h2 : c ≤ 'z') : c.isLower = true := by
  simp only [Char.isLower, Bool.and_eq_true, decide_eq_true_eq]
  exact ⟨Char.le_def.mp h1, Char.le_def.mp h2⟩

/-- A character whose case folding is a lowercase letter is a word character. -/
theorem wordChar_of_lowerCh {c d : Char} (h : lowerCh c = d) (h1 : 'a' ≤ d) (h2 : d ≤ 'z') :
    isWordChar c = true := by
  unfold lowerCh at h
  split at h
  case isTrue hc =>
    simp [isWordChar, Char.isAlphanum, Char.isAlpha, isUpper_of hc.1 hc.2]
  case isFalse hc =>
    subst h
    simp [isWordChar, Char.isAlphanum, Char.isAlpha, isLower_of h1 h2]

/-! ## Profanity masking (`filter_profanity`)

The source builds the regex `\b(w1|...|w8)\b` with `re.IGNORECASE` and
substitutes every match by a run of asterisks of the match's length.
`scanAux` is the operational embedding of `pattern.sub`: it walks the text
left to right; at a position not inside an already-matched span it attempts
a match (a denylist word, compared case-insensitively, with a non-word
character or the string end on both sides) and, on success, emits asterisks
for the matched span and resumes after it.  The running `prevW` flag records
whether the previous character was a word character (the left `\b` test);
`pending` counts the remaining characters of a matched span. -/

/-- The fixed denylist of `filter_profanity` (source list `profane_words`). -/
def profane_words : List (List Char) :=
  ["fuck", "shit", "ass", "bitch", "crap", "damn", "hell", "bastard"].map String.data

/-- Case-insensitive match of word `t` against the first `t.length`
characters of `s`. -/
def matchesCI : List Char → List Char → Bool
  | [], _ => true
  | _ :: _, [] => false
  | t :: ts, c :: cs => (lowerCh c == t) && matchesCI ts cs

/-- True when no word character immediately precedes position `i` of `s`
(the left half of the `\b` test; the start of the string qualifies). -/
def noWordBefore (s : List Char) (i : Nat) : Bool :=
  match i with
  | 0 => true
  | j + 1 => !isWordChar (s.getD j ' ')

/-- The denylist word matching at the start of the suffix `s`, given whether
a word character precedes it.  Reading past the end of the string yields the
default blank, a non-word character, so the end of the string is a boundary. -/
def findMatch (prevW : Bool) (s : List Char) : Option (List Char) :=
  if prevW then Option.none
  else profane_words.find? (fun t => matchesCI t s && !isWordChar (s.getD t.length ' '))

/-- One left-to-right pass of `pattern.sub`: `pending` characters of a
matched span remain to be replaced by asterisks; `prevW` tells whether the
previously consumed character was a word character. -/
def scanAux : Nat → Bool → List Char → List Char
  | _, _, [] => []
  | pending + 1, _, _ :: cs => '*' :: scanAux pending true cs
  | 0, prevW, c :: cs =>
    match findMatch prevW (c :: cs) with
    | some t => '*' :: scanAux (t.length - 1) true cs
    | Option.none => c :: scanAux 0 (isWordChar c) cs

/-- Python values reaching `filter_profanity`: a `str`, or anything else
(the `isinstance(text, str)` test). -/
inductive PyObj where
  | pyStr (s : String)
  | pyOther
deriving DecidableEq

/-- `filter_profanity(text)`: replace profane words with asterisks of equal
length; non-string input yields the empty string. -/
def filter_profanity : PyObj → String
  | .pyStr s => String.mk (scanAux 0 false s.data)
  | .pyOther => ""

/-! ### Positional specification of the masking

`occursAt s i t` states that denylist word `t` occurs at position `i` of `s`
as a case-insensitive whole word; `coveredAt s i` that position `i` lies
inside such an occurrence.  `maskSpec` masks exactly the covered positions. -/

/-- Denylist word `t` occurs at position `i` of `s` as a case-insensitive
whole word (non-word characters or the string ends on both sides). -/
def occursAt (s : List Char) (i : Nat) (t : List Char) : Bool :=
  decide (t ∈ profane_words) && matchesCI t (s.drop i) &&
    noWordBefore s i && !isWordChar (s.getD (i + t.length) ' ')

/-- Position `i` of `s` lies inside a whole-word occurrence of a denylist
word. -/
def coveredAt (s : List Char) (i : Nat) : Bool :=
  (List.range s.length).any (fun j =>
    profane_words.any (fun t =>
      occursAt s j t && decide (j ≤ i) && decide (i < j + t.length)))

/-- The positional description of the masking: asterisks exactly at the
covered positions, every other character unchanged. -/
def maskSpec (s : List Char) : List Char :=
  (List.range s.length).map (fun i => if coveredAt s i then '*' else s.getD i ' ')

/-! ### Basic facts about the denylist and the matchers -/

theorem getD_drop (s : List Char) (i k : Nat) (d : Char) :
    (s.drop i).getD k d = s.getD (i + k) d := by
  simp [List.getD_eq_getElem?_getD, List.getElem?_drop]

theorem profane_nonempty : ∀ t ∈ profane_words, 0 < t.length := by decide

theorem profane_lower : ∀ t ∈ profane_words, ∀ c ∈ t, 'a' ≤ c ∧ c ≤ 'z' := by decide

/-- `matchesCI`, characterised position by position. -/
theorem matchesCI_iff (t : List Char) : ∀ s : List Char,
    matchesCI t s = true ↔
      (t.length ≤ s.length ∧ ∀ k, k < t.length → lowerCh (s.getD k ' ') = t.getD k ' ') := by
  induction t with
  | nil =>
    intro s
    simp [matchesCI]
  | cons a ts ih =>
    intro s
    cases s with
    | nil => simp [matchesCI]
    | cons c cs =>
      simp only [matchesCI, Bool.and_eq_true, beq_iff_eq, ih cs, List.length_cons]
      constructor
      · rintro ⟨h1, h2, h3⟩
        refine ⟨by omega, ?_⟩
        intro k hk
        match k with
        | 0 => simpa using h1
        | k + 1 =>
          simp only [List.getD_cons_succ]
          exact h3 k (by omega)
      · rintro ⟨h1, h2⟩
        refine ⟨by simpa using h2 0 (by omega), by omega, ?_⟩
        intro k hk
        simpa using h2 (k + 1) (by omega)

theorem occursAt_parts {s t : List Char} {i : Nat} (h : occursAt s i t = true) :
    t ∈ profane_words ∧ matchesCI t (s.drop i) = true ∧ noWordBefore s i = true ∧
      isWordChar (s.getD (i + t.length) ' ') = false := by
  simp only [occursAt, Bool.and_eq_true, decide_eq_true_eq, Bool.not_eq_true'] at h
  exact ⟨h.1.1.1, h.1.1.2, h.1.2, h.2⟩

theorem occursAt_intro {s t : List Char} {i : Nat} (hmem : t ∈ profane_words)
    (hm : matchesCI t (s.drop i) = true) (hnb : noWordBefore s i = true)
    (hafter : isWordChar (s.getD (i + t.length) ' ') = false) : occursAt s i t = true := by
  simp only [occursAt, Bool.and_eq_true, decide_eq_true_eq, Bool.not_eq_true']
  exact ⟨⟨⟨hmem, hm⟩, hnb⟩, hafter⟩

theorem occursAt_le_length {s t : List Char} {i : Nat} (h : occursAt s i t = true) :
    i + t.length ≤ s.length := by
  obtain ⟨hmem, hm, -, -⟩ := occursAt_parts h
  have hlen : t.length ≤ s.length - i := by
    simpa using ((matchesCI_iff t _).mp hm).1
  have hpos : 0 < t.length := profane_nonempty t hmem
  omega

/-- Every character inside a whole-word occurrence is a word character. -/
theorem occursAt_span_word {s t : List Char} {i : Nat} (h : occursAt s i t = true) :
    ∀ k, k < t.length → isWordChar (s.getD (i + k) ' ') = true := by
  intro k hk
  obtain ⟨hmem, hm, -, -⟩ := occursAt_parts h
  have h2 := ((matchesCI_iff t _).mp hm).2 k hk
  rw [getD_drop] at h2
  have hc : t.getD k ' ' ∈ t := by
    rw [List.getD_eq_getElem t ' ' hk]
    exact List.getElem_mem hk
  have hl := profane_lower t hmem _ hc
  exact wordChar_of_lowerCh h2 hl.1 hl.2

/-- Two whole-word occurrences at the same position are the same word. -/
theorem occursAt_unique {s t t' : List Char} {i : Nat}
    (h : occursAt s i t = true) (h' : occursAt s i t' = true) : t = t' := by
  have key : ∀ u v : List Char, occursAt s i u = true → occursAt s i v = true →
      ¬ u.length < v.length := by
    intro u v hu hv hlt
    have hword := occursAt_span_word hv u.length hlt
    obtain ⟨-, -, -, hafter⟩ := occursAt_parts hu
    rw [hword] at hafter
    exact absurd hafter (by simp)
  have hlen : t.length = t'.length := by
    have h1 := key t t' h h'
    have h2 := key t' t h' h
    omega
  obtain ⟨-, hm, -, -⟩ := occursAt_parts h
  obtain ⟨-, hm', -, -⟩ := occursAt_parts h'
  refine List.ext_getElem hlen ?_
  intro n h1 h2
  have e1 := ((matchesCI_iff t _).mp hm).2 n h1
  have e2 := ((matchesCI_iff t' _).mp hm').2 n (hlen ▸ h1)
  rw [List.getD_eq_getElem t ' ' h1] at e1
  rw [List.getD_eq_getElem t' ' ' h2] at e2
  rw [← e1, ← e2]

theorem coveredAt_iff {s : List Char} {i : Nat} :
    coveredAt s i = true ↔ ∃ j t, occursAt s j t = true ∧ j ≤ i ∧ i < j + t.length := by
  simp only [coveredAt, List.any_eq_true, List.mem_range, Bool.and_eq_true, decide_eq_true_eq]
  constructor
  · rintro ⟨j, hj, t, hmem, ⟨hocc, h1⟩, h2⟩
    exact ⟨j, t, hocc, h1, h2⟩
  · rintro ⟨j, t, hocc, h1, h2⟩
    have hparts := occursAt_parts hocc
    have hjlen : j < s.length := by
      have ha := occursAt_le_length hocc
      have hb := profane_nonempty t hparts.1
      omega
    exact ⟨j, hjlen, t, hparts.1, ⟨hocc, h1⟩, h2⟩

/-- The scanner's matcher finds exactly the whole-word occurrences, when fed
the word-character status of the preceding character. -/
theorem findMatch_eq_some_iff {s : List Char} {i : Nat} {t : List Char} :
    findMatch (!noWordBefore s i) (s.drop i) = some t ↔ occursAt s i t = true := by
  constructor
  · intro h
    unfold findMatch at h
    split at h
    case isTrue hw => exact absurd h (by simp)
    case isFalse hw =>
      have hnb : noWordBefore s i = true := by
        cases hnw : noWordBefore s i
        · rw [hnw] at hw; simp at hw
        · rfl
      have hmem := List.mem_of_find?_eq_some h
      have hp := List.find?_some h
      simp only [Bool.and_eq_true, Bool.not_eq_true'] at hp
      refine occursAt_intro hmem hp.1 hnb ?_
      rw [← getD_drop]
      exact hp.2
  · intro h
    obtain ⟨hmem, hm, hnb, hafter⟩ := occursAt_parts h
    have hs : (profane_words.find? (fun u =>
        matchesCI u (s.drop i) && !isWordChar ((s.drop i).getD u.length ' '))).isSome := by
      rw [List.find?_isSome]
      refine ⟨t, hmem, ?_⟩
      rw [getD_drop, hm, hafter]
      rfl
    obtain ⟨u, hu⟩ := Option.isSome_iff_exists.mp hs
    have humem := List.mem_of_find?_eq_some hu
    have hup := List.find?_some hu
    simp only [Bool.and_eq_true, Bool.not_eq_true'] at hup
    rw [getD_drop] at hup
    have hoccu : occursAt s i u = true := occursAt_intro humem hup.1 hnb hup.2
    have hut : u = t := occursAt_unique hoccu h
    unfold findMatch
    split
    case isTrue hw => rw [hnb] at hw; simp at hw
    case isFalse _ => rw [hu, hut]

/-! ### The scanner computes the positional masking -/

theorem noWordBefore_succ (s : List Char) (m : Nat) :
    noWordBefore s (m + 1) = !isWordChar (s.getD m ' ') := rfl

/-- The masking, described positionally, from position `i` on. -/
def maskFrom (s : List Char) (i : Nat) : List Char :=
  (List.range' i (s.length - i)).map (fun k => if coveredAt s k then '*' else s.getD k ' ')

/-- Inside a matched span the scanner emits asterisks and then resumes. -/
theorem scanAux_pending (k : Nat) : ∀ l : List Char, k ≤ l.length →
    scanAux k true l = List.replicate k '*' ++ scanAux 0 true (l.drop k) := by
  induction k with
  | zero =>
    intro l _
    simp
  | succ k ih =>
    intro l hl
    cases l with
    | nil => simp at hl
    | cons c cs =>
      simp only [scanAux, List.replicate_succ, List.cons_append, List.drop_succ_cons]
      rw [ih cs (by simpa using hl)]

theorem scanAux_eq_maskFrom : ∀ (fuel : Nat) (s : List Char) (i : Nat),
    s.length - i ≤ fuel → i ≤ s.length →
    (∀ j t, occursAt s j t = true → j < i → j + t.length ≤ i) →
    scanAux 0 (!noWordBefore s i) (s.drop i) = maskFrom s i := by
  intro fuel
  induction fuel with
  | zero =>
    intro s i hf hi hinv
    have hlen : i = s.length := by omega
    subst hlen
    simp [maskFrom, Nat.sub_self, List.drop_length, scanAux]
  | succ fuel ih =>
    intro s i hf hi hinv
    by_cases hilen : i = s.length
    · subst hilen
      simp [maskFrom, Nat.sub_self, List.drop_length, scanAux]
    have hlt : i < s.length := by omega
    have hdropeq : s.drop i = s.getD i ' ' :: s.drop (i + 1) := by
      rw [List.getD_eq_getElem s ' ' hlt]
      exact List.drop_eq_getElem_cons hlt
    cases hfm : findMatch (!noWordBefore s i) (s.drop i) with
    | some t =>
      have hocc : occursAt s i t = true := findMatch_eq_some_iff.mp hfm
      obtain ⟨hmem, hm, hnb, hafter⟩ := occursAt_parts hocc
      have hpos : 0 < t.length := profane_nonempty t hmem
      have hfit : i + t.length ≤ s.length := occursAt_le_length hocc
      have hfm' : findMatch (!noWordBefore s i) (s.getD i ' ' :: s.drop (i + 1)) = some t := by
        rw [← hdropeq]
        exact hfm
      have hstep : scanAux 0 (!noWordBefore s i) (s.drop i) =
          '*' :: scanAux (t.length - 1) true (s.drop (i + 1)) := by
        conv_lhs => rw [hdropeq]
        simp only [scanAux]
        rw [hfm']
      have hlen1 : t.length - 1 ≤ (s.drop (i + 1)).length := by
        rw [List.length_drop]
        omega
      have harith : i + 1 + (t.length - 1) = i + t.length := by omega
      have hnw : noWordBefore s (i + t.length) = false := by
        have hw := occursAt_span_word hocc (t.length - 1) (by omega)
        have hm1 : i + t.length = (i + (t.length - 1)) + 1 := by omega
        rw [hm1, noWordBefore_succ, hw]
        rfl
      have hinv2 : ∀ j u, occursAt s j u = true → j < i + t.length →
          j + u.length ≤ i + t.length := by
        intro j u hocc2 hj
        rcases lt_trichotomy j i with hji | hje | hij
        · have := hinv j u hocc2 hji
          omega
        · subst hje
          rw [occursAt_unique hocc2 hocc]
        · obtain ⟨-, -, hnb2, -⟩ := occursAt_parts hocc2
          have hw := occursAt_span_word hocc (j - 1 - i) (by omega)
          have he : i + (j - 1 - i) = j - 1 := by omega
          rw [he] at hw
          have hj1 : j = (j - 1) + 1 := by omega
          rw [hj1, noWordBefore_succ, hw] at hnb2
          simp at hnb2
      have hrec := ih s (i + t.length) (by omega) (by omega) hinv2
      rw [hnw] at hrec
      simp only [Bool.not_false] at hrec
      have hmask : maskFrom s i = List.replicate t.length '*' ++ maskFrom s (i + t.length) := by
        unfold maskFrom
        have hsplit : List.range' i (s.length - i) =
            List.range' i t.length ++
              List.range' (i + t.length) (s.length - (i + t.length)) := by
          have happ := List.range'_append i t.length (s.length - (i + t.length)) 1
          rw [one_mul] at happ
          have hexp : s.length - i = s.length - (i + t.length) + t.length := by omega
          rw [hexp, ← happ]
        rw [hsplit, List.map_append]
        congr 1
        rw [List.eq_replicate_iff]
        constructor
        · simp
        · intro b hb
          simp only [List.mem_map] at hb
          obtain ⟨k, hk, rfl⟩ := hb
          rw [List.mem_range'_1] at hk
          have hcov : coveredAt s k = true :=
            coveredAt_iff.mpr ⟨i, t, hocc, by omega, by omega⟩
          simp [hcov]
      rw [hstep, scanAux_pending (t.length - 1) _ hlen1, List.drop_drop, harith, hrec, hmask]
      have hrep : '*' :: List.replicate (t.length - 1) '*' = List.replicate t.length '*' := by
        rw [← List.replicate_succ]
        congr 1
        omega
      rw [← List.cons_append, hrep]
    | none =>
      have hnocc : ∀ t, ¬ occursAt s i t = true := by
        intro t ht
        have := findMatch_eq_some_iff.mpr ht
        rw [hfm] at this
        cases this
      have hncov : coveredAt s i = false := by
        cases hc : coveredAt s i
        · rfl
        · obtain ⟨j, t, hocc2, hji, hcov⟩ := coveredAt_iff.mp hc
          rcases eq_or_lt_of_le hji with hje | hjlt
          · subst hje
            exact absurd hocc2 (hnocc t)
          · have := hinv j t hocc2 hjlt
            omega
      have hfm' : findMatch (!noWordBefore s i) (s.getD i ' ' :: s.drop (i + 1)) =
          Option.none := by
        rw [← hdropeq]
        exact hfm
      have hstep : scanAux 0 (!noWordBefore s i) (s.drop i) =
          s.getD i ' ' :: scanAux 0 (isWordChar (s.getD i ' ')) (s.drop (i + 1)) := by
        conv_lhs => rw [hdropeq]
        simp only [scanAux]
        rw [hfm']
      have hinv2 : ∀ j t, occursAt s j t = true → j < i + 1 → j + t.length ≤ i + 1 := by
        intro j t hocc2 hj
        rcases Nat.lt_or_ge j i with hji | hge
        · have := hinv j t hocc2 hji
          omega
        · have hje : j = i := by omega
          subst hje
          exact absurd hocc2 (hnocc t)
      have hrec := ih s (i + 1) (by omega) (by omega) hinv2
      rw [noWordBefore_succ, Bool.not_not] at hrec
      have hmask : maskFrom s i =
          (if coveredAt s i then '*' else s.getD i ' ') :: maskFrom s (i + 1) := by
        unfold maskFrom
        have hsub : s.length - i = (s.length - (i + 1)) + 1 := by omega
        rw [hsub, List.range'_succ, List.map_cons]
      rw [hstep, hrec, hmask, hncov]
      simp

/-- The regex substitution masks exactly the covered positions. -/
theorem scanAux_eq_maskSpec (s : List Char) : scanAux 0 false s = maskSpec s := by
  have h := scanAux_eq_maskFrom s.length s 0 (by omega) (by omega)
    (by intro j t _ hj; omega)
  simp only [noWordBefore, Bool.not_true, List.drop_zero] at h
  rw [h]
  unfold maskSpec maskFrom
  rw [List.range_eq_range', Nat.sub_zero]

/-! ### Properties of the positional masking, and idempotence -/

theorem getD_of_le {s : List Char} {p : Nat} (h : s.length ≤ p) (d : Char) :
    s.getD p d = d := by
  rw [List.getD_eq_getElem?_getD, List.getElem?_eq_none (by omega)]
  rfl

theorem maskSpec_length (s : List Char) : (maskSpec s).length = s.length := by
  simp [maskSpec]

theorem maskSpec_getD {s : List Char} {p : Nat} (hp : p < s.length) (d : Char) :
    (maskSpec s).getD p d = if coveredAt s p then '*' else s.getD p ' ' := by
  unfold maskSpec
  rw [List.getD_eq_getElem _ d (by simpa using hp)]
  rw [List.getElem_map, List.getElem_range]

/-- Masking leaves no whole-word occurrence behind. -/
theorem occursAt_maskSpec_false (s : List Char) (j : Nat) (t : List Char) :
    occursAt (maskSpec s) j t = false := by
  by_contra hcon
  rw [Bool.not_eq_false] at hcon
  obtain ⟨hmem, hmatch, hnb, hafter⟩ := occursAt_parts hcon
  have hlenm : (maskSpec s).length = s.length := maskSpec_length s
  have hfit : j + t.length ≤ s.length := by
    have := occursAt_le_length hcon
    omega
  have hpos : 0 < t.length := profane_nonempty t hmem
  have hspan : ∀ k, k < t.length → coveredAt s (j + k) = false ∧
      (maskSpec s).getD (j + k) ' ' = s.getD (j + k) ' ' := by
    intro k hk
    have hklen : j + k < s.length := by omega
    have hchar := ((matchesCI_iff t _).mp hmatch).2 k hk
    rw [getD_drop] at hchar
    have hlow := profane_lower t hmem (t.getD k ' ')
      (by rw [List.getD_eq_getElem t ' ' hk]; exact List.getElem_mem hk)
    cases hcov : coveredAt s (j + k)
    · refine ⟨rfl, ?_⟩
      rw [maskSpec_getD hklen ' ', hcov]
      simp
    · exfalso
      have hstar : (maskSpec s).getD (j + k) ' ' = '*' := by
        rw [maskSpec_getD hklen ' ', hcov]
        simp
      rw [hstar] at hchar
      have hlowstar : lowerCh '*' = '*' := by decide
      rw [hlowstar] at hchar
      rw [← hchar] at hlow
      exact absurd hlow (by decide)
  have hword : ∀ k, k < t.length → isWordChar (s.getD (j + k) ' ') = true := by
    intro k hk
    have hchar := ((matchesCI_iff t _).mp hmatch).2 k hk
    rw [getD_drop, (hspan k hk).2] at hchar
    have hlow := profane_lower t hmem (t.getD k ' ')
      (by rw [List.getD_eq_getElem t ' ' hk]; exact List.getElem_mem hk)
    exact wordChar_of_lowerCh hchar hlow.1 hlow.2
  have hmatch_s : matchesCI t (s.drop j) = true := by
    rw [matchesCI_iff]
    constructor
    · rw [List.length_drop]
      omega
    · intro k hk
      rw [getD_drop]
      have hchar := ((matchesCI_iff t _).mp hmatch).2 k hk
      rw [getD_drop, (hspan k hk).2] at hchar
      exact hchar
  have hnb_s : noWordBefore s j = true := by
    by_cases hj0 : j = 0
    · subst hj0
      rfl
    · obtain ⟨j1, rfl⟩ : ∃ j1, j = j1 + 1 := ⟨j - 1, by omega⟩
      rw [noWordBefore_succ]
      rw [noWordBefore_succ] at hnb
      by_cases hcov : coveredAt s j1 = true
      · exfalso
        obtain ⟨a, u, hoccu, ha1, ha2⟩ := coveredAt_iff.mp hcov
        have hunc : coveredAt s (j1 + 1) = false := by
          have h0 := (hspan 0 hpos).1
          rwa [Nat.add_zero] at h0
        have hau : a + u.length = j1 + 1 := by
          by_contra hne
          have hcv : coveredAt s (j1 + 1) = true :=
            coveredAt_iff.mpr ⟨a, u, hoccu, by omega, by omega⟩
          rw [hunc] at hcv
          cases hcv
        obtain ⟨-, -, -, hafteru⟩ := occursAt_parts hoccu
        rw [hau] at hafteru
        have hw0 := hword 0 hpos
        rw [Nat.add_zero] at hw0
        rw [hw0] at hafteru
        cases hafteru
      · have hcov' : coveredAt s j1 = false := by
          cases hc : coveredAt s j1
          · rfl
          · exact absurd hc hcov
        have heq : (maskSpec s).getD j1 ' ' = s.getD j1 ' ' := by
          by_cases hl : j1 < s.length
          · rw [maskSpec_getD hl ' ', hcov']
            simp
          · rw [getD_of_le (by omega) ' ', getD_of_le (by omega) ' ']
        rw [heq] at hnb
        exact hnb
  have hafter_s : isWordChar (s.getD (j + t.length) ' ') = false := by
    by_cases hl : j + t.length < s.length
    · by_cases hcov : coveredAt s (j + t.length) = true
      · exfalso
        obtain ⟨a, u, hoccu, ha1, ha2⟩ := coveredAt_iff.mp hcov
        have hunc : coveredAt s (j + t.length - 1) = false := by
          have h0 := (hspan (t.length - 1) (by omega)).1
          have he : j + (t.length - 1) = j + t.length - 1 := by omega
          rwa [he] at h0
        have ha : a = j + t.length := by
          by_contra hne
          have hcv : coveredAt s (j + t.length - 1) = true :=
            coveredAt_iff.mpr ⟨a, u, hoccu, by omega, by omega⟩
          rw [hunc] at hcv
          cases hcv
        obtain ⟨-, -, hnbu, -⟩ := occursAt_parts hoccu
        rw [ha] at hnbu
        have hja : j + t.length = (j + t.length - 1) + 1 := by omega
        rw [hja, noWordBefore_succ] at hnbu
        have hw := hword (t.length - 1) (by omega)
        have he : j + (t.length - 1) = j + t.length - 1 := by omega
        rw [he] at hw
        rw [hw] at hnbu
        cases hnbu
      · have hcov' : coveredAt s (j + t.length) = false := by
          cases hc : coveredAt s (j + t.length)
          · rfl
          · exact absurd hc hcov
        have heq : (maskSpec s).getD (j + t.length) ' ' = s.getD (j + t.length) ' ' := by
          rw [maskSpec_getD hl ' ', hcov']
          simp
        rw [← heq]
        exact hafter
    · rw [getD_of_le (by omega) ' ']
      decide
  have hocc_s : occursAt s j t = true := occursAt_intro hmem hmatch_s hnb_s hafter_s
  have hcov0 : coveredAt s j = true :=
    coveredAt_iff.mpr ⟨j, t, hocc_s, le_refl j, by omega⟩
  have h0 := (hspan 0 hpos).1
  rw [Nat.add_zero, hcov0] at h0
  cases h0

theorem coveredAt_maskSpec_false (s : List Char) (i : Nat) :
    coveredAt (maskSpec s) i = false := by
  cases hc : coveredAt (maskSpec s) i
  · rfl
  · obtain ⟨j, t, hocc, -, -⟩ := coveredAt_iff.mp hc
    rw [occursAt_maskSpec_false] at hocc
    cases hocc

theorem maskSpec_idem (s : List Char) : maskSpec (maskSpec s) = maskSpec s := by
  refine List.ext_getElem (by simp [maskSpec_length]) ?_
  intro n h1 h2
  rw [← List.getD_eq_getElem _ ' ' h1, ← List.getD_eq_getElem _ ' ' h2]
  rw [maskSpec_getD (by simpa using h2) ' ', coveredAt_maskSpec_false]
  simp

theorem scanAux_length (s : List Char) : (scanAux 0 false s).length = s.length := by
  rw [scanAux_eq_maskSpec]
  simp [maskSpec]

/-- Masking a masked text changes nothing (the mask character is not a word
character, and the remaining words were already clean). -/
theorem filter_profanity_idem (s : String) :
    filter_profanity (.pyStr (filter_profanity (.pyStr s))) = filter_profanity (.pyStr s) := by
  simp only [filter_profanity]
  congr 1
  rw [scanAux_eq_maskSpec s.data, scanAux_eq_maskSpec (maskSpec s.data), maskSpec_idem]

/-! ## Substring search

`containsSub hay pat` is plain substring containment, the model of Python's
`pat in hay` and, applied to case-folded texts, of
`Series.str.contains(pat, case=False)` on the literal patterns the program
uses. -/

def containsSub (hay pat : List Char) : Bool :=
  match hay with
  | [] => pat.isEmpty
  | _ :: t => pat.isPrefixOf hay || containsSub t pat

/-- Case-sensitive substring containment (`pat in hay`). -/
def containsStr (hay pat : String) : Bool := containsSub hay.data pat.data

/-- Case-insensitive substring containment (`.str.contains(pat, case=False)`
for the program's literal patterns). -/
def containsStrCI (hay pat : String) : Bool :=
  containsSub (hay.data.map lowerCh) (pat.data.map lowerCh)

/-! ## Reviews: spoiler exclusion (`filter_reviews_no_spoilers`) -/

/-- One row of the reviews table (columns the program reads). -/
structure Review where
  work_id : Int
  rating : Int
  review_text : Option String
  n_votes : Option Int
deriving DecidableEq

/-- The condition the source tests: the body contains the hidden-spoiler
marker or the phrase "spoiler alert", both matched case-insensitively
(`case=False` on both `.str.contains` calls); an absent body matches
nothing (`na=False`). -/
def spoilerMarked (r : Review) : Bool :=
  match r.review_text with
  | Option.none => false
  | some t => containsStrCI t "(view spoiler)[" || containsStrCI t "spoiler alert"

/-- `filter_reviews_no_spoilers(df)`: drop the rows whose body matches. -/
def filter_reviews_no_spoilers (l : List Review) : List Review :=
  l.filter (fun r => !spoilerMarked r)

/-- The exclusion condition as claim C5 words it: the marker matched as a
literal (case-sensitive) sequence, the phrase case-insensitively. -/
def spoilerMarkedClaimed (r : Review) : Bool :=
  match r.review_text with
  | Option.none => false
  | some t => containsStr t "(view spoiler)[" || containsStrCI t "spoiler alert"

/-! ## Review display (`display_review` and the review loop) -/

/-- The truncation applied by `display_review`: first 400 characters with
newlines collapsed to blanks, a continuation marker when longer. -/
def truncateForDisplay (s : String) : String :=
  String.mk ((s.data.take 400).map (fun c => if c = '\n' then ' ' else c) ++
    (if 400 < s.data.length then "...".data else []))

/-- The text `display_review` renders: an absent body gets a fixed message,
a present body is profanity-masked and then truncated. -/
def display_review_text (review_text : Option String) : String :=
  match review_text with
  | Option.none => "No review text available."
  | some t => truncateForDisplay (filter_profanity (.pyStr t))

/-- A pandas cell holding text or NaN, as the Python value
`filter_profanity` receives. -/
def pyOfCell (v : Option String) : PyObj :=
  match v with
  | some t => .pyStr t
  | Option.none => .pyOther

/-- The review loop: when the profanity flag is on, the body is replaced by
`filter_profanity(body)` (a string) before `display_review` runs; otherwise
`display_review` receives the body unchanged. -/
def displayedReviewText (filter_prof : Bool) (review_text : Option String) : String :=
  if filter_prof then
    display_review_text (some (filter_profanity (pyOfCell review_text)))
  else
    display_review_text review_text

/-! ## The works catalog and the filter pass -/

/-- One row of the works table (columns the program reads).  Fields whose
column may hold NaN are `Option`-valued. -/
structure Work where
  work_id : Int
  original_title : Option String
  author : Option String
  genres : Option String
  avg_rating : Option ℚ
  ratings_count : Option Int
  text_reviews_count : Option Int
  original_publication_year : Option Int
  num_pages : Option Int
  description : Option String
  image_url : Option String
deriving DecidableEq

/-- The user-supplied constraints of one evaluation, together with the
session constants the year filter consults (`min_year_slider`, the smallest
positive year of the catalog, and `max_year`). -/
structure FilterSpec where
  selected_genres : List String
  selected_authors : List String
  search_title : String
  min_rating : ℚ
  year_range : Int × Int
  min_year_slider : Int
  max_year : Int
  page_range : Int × Int
  min_ratings : Int
  include_keyword : String
  exclude_keyword : String
  only_with_reviews : Bool
  num_books : Nat
  surprise : Bool

/-- Genre step: the raw genre text (absent read as empty) contains some
selected genre as a substring. -/
def genreKept (spec : FilterSpec) (w : Work) : Bool :=
  spec.selected_genres.any (fun g => containsStr (w.genres.getD "") g)

/-- Author step: `author.isin(selected_authors)`; NaN is in no list. -/
def authorKept (spec : FilterSpec) (w : Work) : Bool :=
  match w.author with
  | some a => decide (a ∈ spec.selected_authors)
  | Option.none => false

/-- Title search step (`na=False`). -/
def titleKept (spec : FilterSpec) (w : Work) : Bool :=
  match w.original_title with
  | some t => containsStrCI t spec.search_title
  | Option.none => false

/-- Minimum average rating: a NaN comparison is false, so an absent rating
drops the row. -/
def ratingKept (spec : FilterSpec) (w : Work) : Bool :=
  match w.avg_rating with
  | some r => decide (spec.min_rating ≤ r)
  | Option.none => false

/-- Publication year step.  On the full default span the source adds the
`isna` disjunct and the below-slider-minimum (BCE) disjunct; on any other
range only the plain comparisons remain, and a NaN comparison is false. -/
def yearKept (spec : FilterSpec) (w : Work) : Bool :=
  if spec.year_range = (spec.min_year_slider, spec.max_year) then
    match w.original_publication_year with
    | Option.none => true
    | some y => (decide (spec.year_range.1 ≤ y) && decide (y ≤ spec.year_range.2)) ||
        decide (y < spec.min_year_slider)
  else
    match w.original_publication_year with
    | Option.none => false
    | some y => decide (spec.year_range.1 ≤ y) && decide (y ≤ spec.year_range.2)

/-- Page count step: in range, or absent (explicit `isna` disjunct). -/
def pagesKept (spec : FilterSpec) (w : Work) : Bool :=
  match w.num_pages with
  | some p => decide (spec.page_range.1 ≤ p) && decide (p ≤ spec.page_range.2)
  | Option.none => true

/-- Minimum rating count: a NaN comparison is false, so an absent count
drops the row, whatever the threshold. -/
def ratingsCountKept (spec : FilterSpec) (w : Work) : Bool :=
  match w.ratings_count with
  | some c => decide (spec.min_ratings ≤ c)
  | Option.none => false

/-- Include-keyword step (`na=False` on both columns). -/
def includeKept (spec : FilterSpec) (w : Work) : Bool :=
  (match w.original_title with
   | some t => containsStrCI t spec.include_keyword
   | Option.none => false) ||
  (match w.description with
   | some d => containsStrCI d spec.include_keyword
   | Option.none => false)

/-- Exclude-keyword step: neither column contains the keyword (absent
columns match nothing, so such rows are kept). -/
def excludeKept (spec : FilterSpec) (w : Work) : Bool :=
  !(match w.original_title with
    | some t => containsStrCI t spec.exclude_keyword
    | Option.none => false) &&
  !(match w.description with
    | some d => containsStrCI d spec.exclude_keyword
    | Option.none => false)

/-- Has-text-reviews step: count strictly positive; NaN comparison false. -/
def reviewsKept (_spec : FilterSpec) (w : Work) : Bool :=
  match w.text_reviews_count with
  | some c => decide (0 < c)
  | Option.none => false

/-- The filter pass, step for step in source order; the guarded steps run
only when their control is set, exactly as in the source. -/
def applyFilters (catalog : List Work) (spec : FilterSpec) : List Work :=
  let f1 := if spec.selected_genres.isEmpty then catalog else catalog.filter (genreKept spec)
  let f2 := if spec.selected_authors.isEmpty then f1 else f1.filter (authorKept spec)
  let f3 := if spec.search_title = "" then f2 else f2.filter (titleKept spec)
  let f4 := f3.filter (ratingKept spec)
  let f5 := f4.filter (yearKept spec)
  let f6 := f5.filter (pagesKept spec)
  let f7 := f6.filter (ratingsCountKept spec)
  let f8 := if spec.include_keyword = "" then f7 else f7.filter (includeKept spec)
  let f9 := if spec.exclude_keyword = "" then f8 else f8.filter (excludeKept spec)
  if spec.only_with_reviews then f9.filter (reviewsKept spec) else f9

/-- The conjunction of all applicable row predicates of the pass. -/
def keptAll (spec : FilterSpec) (w : Work) : Bool :=
  (spec.selected_genres.isEmpty || genreKept spec w) &&
  (spec.selected_authors.isEmpty || authorKept spec w) &&
  (decide (spec.search_title = "") || titleKept spec w) &&
  ratingKept spec w &&
  yearKept spec w &&
  pagesKept spec w &&
  ratingsCountKept spec w &&
  (decide (spec.include_keyword = "") || includeKept spec w) &&
  (decide (spec.exclude_keyword = "") || excludeKept spec w) &&
  (!spec.only_with_reviews || reviewsKept spec w)

/-- The comparator of one sort key of
`sort_values(by=[...], ascending=False)`: larger values first, NaN last. -/
def cmpDescNaLast {α : Type} [LinearOrder α] (a b : Option α) : Ordering :=
  match a, b with
  | some x, some y => if y < x then .lt else if x < y then .gt else .eq
  | some _, Option.none => .lt
  | Option.none, some _ => .gt
  | Option.none, Option.none => .eq

/-- The rating-count tiebreak of the ranking sort (descending, NaN last). -/
def cntLE (a b : Work) : Bool :=
  match cmpDescNaLast a.ratings_count b.ratings_count with
  | .gt => false
  | _ => true

/-- Row order of the ranking sort: average rating descending, then rating
count descending (`sort_values(by=['avg_rating', 'ratings_count'],
ascending=[False, False])`, a stable lexicographic sort). -/
def workLE (a b : Work) : Bool :=
  match cmpDescNaLast a.avg_rating b.avg_rating with
  | .lt => true
  | .gt => false
  | .eq => cntLE a b

/-- `DataFrame.sample(n)`: the random generator draws `n` distinct row
positions; the result reads them off.  The drawn positions are passed in
explicitly so the sampling is a function. -/
def pandasSample (l : List Work) (ridx : List Nat) : List Work :=
  ridx.filterMap (fun i => l[i]?)

/-- The whole pass: filters, ranking sort, and the surprise override
(`filtered.sample(min(num_books, len(filtered)))` when the button was
pressed and the candidate set is non-empty). -/
def filterPass (catalog : List Work) (spec : FilterSpec) (ridx : List Nat) : List Work :=
  let ranked := (applyFilters catalog spec).mergeSort workLE
  if spec.surprise && !ranked.isEmpty then pandasSample ranked ridx else ranked

/-! ## Genre extraction (`extract_all_genres`)

The source assigns `df['genres'] = df['genres'].fillna('')` on the table it
was handed, so the write-back is part of the model: the function returns the
genre list together with the table as it leaves it. -/

/-- One cell's tokens: split on commas, trim, drop empties. -/
def genreTokens (s : String) : List String :=
  ((s.splitOn ",").map String.trim).filter (fun g => g ≠ "")

/-- `extract_all_genres(df)`: the sorted deduplicated genre tokens, and the
table after the in-place `fillna('')` on its genre column. -/
def extract_all_genres (df : List Work) : List String × List Work :=
  let df2 := df.map (fun w => { w with genres := some (w.genres.getD "") })
  (((df2.map (fun w => genreTokens (w.genres.getD ""))).flatten.eraseDups).mergeSort
      (fun a b => decide (a ≤ b)),
    df2)

/-! ### Lemmas about the filter pass -/

theorem bor_resolve {b p : Bool} (h : (b || p) = true) (hb : ¬ b = true) : p = true := by
  rcases Bool.or_eq_true_iff.mp h with h1 | h1
  · exact absurd h1 hb
  · exact h1

theorem bor_intro {b p : Bool} (h : ¬ b = true → p = true) : (b || p) = true := by
  cases hb : b
  · rw [Bool.false_or]
    exact h (by simp [hb])
  · rfl

theorem bnot_or_intro {b p : Bool} (h : b = true → p = true) : (!b || p) = true := by
  cases hb : b
  · rfl
  · simpa using h hb

theorem bnot_or_resolve {b p : Bool} (h : (!b || p) = true) (hb : b = true) : p = true := by
  rw [hb] at h
  simpa using h

theorem mem_ite_filter_skip {α : Type} {c : Prop} [Decidable c] {l : List α} {p : α → Bool}
    {w : α} (h : w ∈ (if c then l else l.filter p)) : w ∈ l ∧ (¬c → p w = true) := by
  split at h
  case isTrue hc => exact ⟨h, fun hn => absurd hc hn⟩
  case isFalse hc =>
    exact ⟨(List.mem_filter.mp h).1, fun _ => (List.mem_filter.mp h).2⟩

theorem mem_ite_filter_app {α : Type} {c : Prop} [Decidable c] {l : List α} {p : α → Bool}
    {w : α} (h : w ∈ (if c then l.filter p else l)) : w ∈ l ∧ (c → p w = true) := by
  split at h
  case isTrue hc =>
    exact ⟨(List.mem_filter.mp h).1, fun _ => (List.mem_filter.mp h).2⟩
  case isFalse hc => exact ⟨h, fun hcc => absurd hcc hc⟩

theorem keptAll_parts {spec : FilterSpec} {w : Work} (h : keptAll spec w = true) :
    (spec.selected_genres.isEmpty || genreKept spec w) = true ∧
    (spec.selected_authors.isEmpty || authorKept spec w) = true ∧
    (decide (spec.search_title = "") || titleKept spec w) = true ∧
    ratingKept spec w = true ∧
    yearKept spec w = true ∧
    pagesKept spec w = true ∧
    ratingsCountKept spec w = true ∧
    (decide (spec.include_keyword = "") || includeKept spec w) = true ∧
    (decide (spec.exclude_keyword = "") || excludeKept spec w) = true ∧
    (!spec.only_with_reviews || reviewsKept spec w) = true := by
  simp only [keptAll, Bool.and_eq_true] at h
  obtain ⟨⟨⟨⟨⟨⟨⟨⟨⟨hA, hB⟩, hC⟩, hD⟩, hE⟩, hF⟩, hG⟩, hH⟩, hI⟩, hJ⟩ := h
  exact ⟨hA, hB, hC, hD, hE, hF, hG, hH, hI, hJ⟩

theorem keptAll_intro {spec : FilterSpec} {w : Work}
    (hA : (spec.selected_genres.isEmpty || genreKept spec w) = true)
    (hB : (spec.selected_authors.isEmpty || authorKept spec w) = true)
    (hC : (decide (spec.search_title = "") || titleKept spec w) = true)
    (hD : ratingKept spec w = true)
    (hE : yearKept spec w = true)
    (hF : pagesKept spec w = true)
    (hG : ratingsCountKept spec w = true)
    (hH : (decide (spec.include_keyword = "") || includeKept spec w) = true)
    (hI : (decide (spec.exclude_keyword = "") || excludeKept spec w) = true)
    (hJ : (!spec.only_with_reviews || reviewsKept spec w) = true) :
    keptAll spec w = true := by
  simp only [keptAll, Bool.and_eq_true]
  exact ⟨⟨⟨⟨⟨⟨⟨⟨⟨hA, hB⟩, hC⟩, hD⟩, hE⟩, hF⟩, hG⟩, hH⟩, hI⟩, hJ⟩

/-- A row of the pass output came from the catalog and satisfies every
applicable predicate. -/
theorem mem_applyFilters {catalog : List Work} {spec : FilterSpec} {w : Work}
    (h : w ∈ applyFilters catalog spec) : w ∈ catalog ∧ keptAll spec w = true := by
  simp only [applyFilters] at h
  obtain ⟨h, hJ⟩ := mem_ite_filter_app h
  obtain ⟨h, hI⟩ := mem_ite_filter_skip h
  obtain ⟨h, hH⟩ := mem_ite_filter_skip h
  have hmf := List.mem_filter.mp h
  have hG := hmf.2
  replace h := hmf.1
  have hmf := List.mem_filter.mp h
  have hF := hmf.2
  replace h := hmf.1
  have hmf := List.mem_filter.mp h
  have hE := hmf.2
  replace h := hmf.1
  have hmf := List.mem_filter.mp h
  have hD := hmf.2
  replace h := hmf.1
  obtain ⟨h, hC⟩ := mem_ite_filter_skip h
  obtain ⟨h, hB⟩ := mem_ite_filter_skip h
  obtain ⟨h, hA⟩ := mem_ite_filter_skip h
  refine ⟨h, keptAll_intro (bor_intro hA) (bor_intro hB)
    (bor_intro (fun hb => hC (by simpa using hb))) hD hE hF hG
    (bor_intro (fun hb => hH (by simpa using hb)))
    (bor_intro (fun hb => hI (by simpa using hb)))
    (bnot_or_intro hJ)⟩

/-- A list all of whose rows pass every applicable predicate goes through
the filter pass unchanged. -/
theorem applyFilters_of_all_kept {l : List Work} {spec : FilterSpec}
    (h : ∀ w ∈ l, keptAll spec w = true) : applyFilters l spec = l := by
  simp only [applyFilters]
  have h1 : (if spec.selected_genres.isEmpty then l else l.filter (genreKept spec)) = l := by
    split
    · rfl
    case isFalse hc =>
      exact List.filter_eq_self.mpr (fun w hw => bor_resolve (keptAll_parts (h w hw)).1 hc)
  rw [h1]
  have h2 : (if spec.selected_authors.isEmpty then l else l.filter (authorKept spec)) = l := by
    split
    · rfl
    case isFalse hc =>
      exact List.filter_eq_self.mpr (fun w hw => bor_resolve (keptAll_parts (h w hw)).2.1 hc)
  rw [h2]
  have h3 : (if spec.search_title = "" then l else l.filter (titleKept spec)) = l := by
    split
    · rfl
    case isFalse hc =>
      exact List.filter_eq_self.mpr (fun w hw =>
        bor_resolve (keptAll_parts (h w hw)).2.2.1 (by simpa using hc))
  rw [h3]
  rw [List.filter_eq_self.mpr (fun w hw => (keptAll_parts (h w hw)).2.2.2.1)]
  rw [List.filter_eq_self.mpr (fun w hw => (keptAll_parts (h w hw)).2.2.2.2.1)]
  rw [List.filter_eq_self.mpr (fun w hw => (keptAll_parts (h w hw)).2.2.2.2.2.1)]
  rw [List.filter_eq_self.mpr (fun w hw => (keptAll_parts (h w hw)).2.2.2.2.2.2.1)]
  have h8 : (if spec.include_keyword = "" then l else l.filter (includeKept spec)) = l := by
    split
    · rfl
    case isFalse hc =>
      exact List.filter_eq_self.mpr (fun w hw =>
        bor_resolve (keptAll_parts (h w hw)).2.2.2.2.2.2.2.1 (by simpa using hc))
  rw [h8]
  have h9 : (if spec.exclude_keyword = "" then l else l.filter (excludeKept spec)) = l := by
    split
    · rfl
    case isFalse hc =>
      exact List.filter_eq_self.mpr (fun w hw =>
        bor_resolve (keptAll_parts (h w hw)).2.2.2.2.2.2.2.2.1 (by simpa using hc))
  rw [h9]
  split
  case isTrue hc =>
    exact List.filter_eq_self.mpr (fun w hw =>
      bnot_or_resolve (keptAll_parts (h w hw)).2.2.2.2.2.2.2.2.2 hc)
  case isFalse hc => rfl

theorem pair_sublist_filter {α : Type} {a b : α} {l : List α} {p : α → Bool}
    (hs : [a, b].Sublist l) (ha : p a = true) (hb : p b = true) :
    [a, b].Sublist (l.filter p) := by
  have h := List.Sublist.filter p hs
  rwa [show [a, b].filter p = [a, b] from by simp [ha, hb]] at h

theorem pair_sublist_ite_skip {α : Type} {a b : α} {c : Prop} [Decidable c] {l : List α}
    {p : α → Bool} (hs : [a, b].Sublist l) (h : ¬c → p a = true ∧ p b = true) :
    [a, b].Sublist (if c then l else l.filter p) := by
  split
  · exact hs
  case isFalse hc => exact pair_sublist_filter hs (h hc).1 (h hc).2

theorem pair_sublist_ite_app {α : Type} {a b : α} {c : Prop} [Decidable c] {l : List α}
    {p : α → Bool} (hs : [a, b].Sublist l) (h : c → p a = true ∧ p b = true) :
    [a, b].Sublist (if c then l.filter p else l) := by
  split
  case isTrue hc => exact pair_sublist_filter hs (h hc).1 (h hc).2
  case isFalse hc => exact hs

/-- A pair of rows that both pass every applicable predicate keeps its
relative order through the filter pass. -/
theorem pair_sublist_applyFilters {a b : Work} {catalog : List Work} {spec : FilterSpec}
    (hab : [a, b].Sublist catalog) (ha : keptAll spec a = true) (hb : keptAll spec b = true) :
    [a, b].Sublist (applyFilters catalog spec) := by
  have pa := keptAll_parts ha
  have pb := keptAll_parts hb
  simp only [applyFilters]
  refine pair_sublist_ite_app ?_ (fun hc =>
    ⟨bnot_or_resolve pa.2.2.2.2.2.2.2.2.2 hc, bnot_or_resolve pb.2.2.2.2.2.2.2.2.2 hc⟩)
  refine pair_sublist_ite_skip ?_ (fun hc =>
    ⟨bor_resolve pa.2.2.2.2.2.2.2.2.1 (by simpa using hc),
     bor_resolve pb.2.2.2.2.2.2.2.2.1 (by simpa using hc)⟩)
  refine pair_sublist_ite_skip ?_ (fun hc =>
    ⟨bor_resolve pa.2.2.2.2.2.2.2.1 (by simpa using hc),
     bor_resolve pb.2.2.2.2.2.2.2.1 (by simpa using hc)⟩)
  refine pair_sublist_filter ?_ pa.2.2.2.2.2.2.1 pb.2.2.2.2.2.2.1
  refine pair_sublist_filter ?_ pa.2.2.2.2.2.1 pb.2.2.2.2.2.1
  refine pair_sublist_filter ?_ pa.2.2.2.2.1 pb.2.2.2.2.1
  refine pair_sublist_filter ?_ pa.2.2.2.1 pb.2.2.2.1
  refine pair_sublist_ite_skip ?_ (fun hc =>
    ⟨bor_resolve pa.2.2.1 (by simpa using hc), bor_resolve pb.2.2.1 (by simpa using hc)⟩)
  refine pair_sublist_ite_skip ?_ (fun hc =>
    ⟨bor_resolve pa.2.1 hc, bor_resolve pb.2.1 hc⟩)
  exact pair_sublist_ite_skip hab (fun hc =>
    ⟨bor_resolve pa.1 hc, bor_resolve pb.1 hc⟩)

/-! ### The ranking comparator is total and transitive -/

theorem cmpDescNaLast_some_lt {α : Type} [LinearOrder α] {x y : α} :
    cmpDescNaLast (some x) (some y) = .lt ↔ y < x := by
  simp only [cmpDescNaLast]
  split_ifs with h1 h2
  · exact iff_of_true rfl h1
  · exact iff_of_false (by simp) h1
  · exact iff_of_false (by simp) h1

theorem cmpDescNaLast_some_gt {α : Type} [LinearOrder α] {x y : α} :
    cmpDescNaLast (some x) (some y) = .gt ↔ x < y := by
  simp only [cmpDescNaLast]
  split_ifs with h1 h2
  · exact iff_of_false (by simp) (lt_asymm h1)
  · exact iff_of_true rfl h2
  · exact iff_of_false (by simp) h2

theorem cmpDescNaLast_eq_iff {α : Type} [LinearOrder α] (a b : Option α) :
    cmpDescNaLast a b = .eq ↔ a = b := by
  cases a with
  | none =>
    cases b with
    | none => simp [cmpDescNaLast]
    | some y => simp [cmpDescNaLast]
  | some x =>
    cases b with
    | none => simp [cmpDescNaLast]
    | some y =>
      simp only [cmpDescNaLast, Option.some.injEq]
      split_ifs with h1 h2
      · exact iff_of_false (by simp) (fun h => absurd (h ▸ h1) (lt_irrefl _))
      · exact iff_of_false (by simp) (fun h => absurd (h ▸ h2) (lt_irrefl _))
      · exact iff_of_true rfl (le_antisymm (not_lt.mp h1) (not_lt.mp h2))

theorem cmpDescNaLast_lt_trans {α : Type} [LinearOrder α] :
    ∀ {a b c : Option α}, cmpDescNaLast a b = .lt → cmpDescNaLast b c = .lt →
      cmpDescNaLast a c = .lt
  | some x, some y, some z, h1, h2 => by
    rw [cmpDescNaLast_some_lt] at h1 h2 ⊢
    exact lt_trans h2 h1
  | some _, some _, Option.none, _, _ => rfl
  | some _, Option.none, c, _, h2 => by cases c <;> simp [cmpDescNaLast] at h2
  | Option.none, b, _, h1, _ => by cases b <;> simp [cmpDescNaLast] at h1

theorem cmpDescNaLast_total {α : Type} [LinearOrder α] :
    ∀ a b : Option α, cmpDescNaLast a b = .lt ∨ cmpDescNaLast b a = .lt ∨
      (cmpDescNaLast a b = .eq ∧ cmpDescNaLast b a = .eq)
  | some x, some y => by
    rcases lt_trichotomy x y with h | h | h
    · right; left
      exact cmpDescNaLast_some_lt.mpr h
    · right; right
      subst h
      exact ⟨(cmpDescNaLast_eq_iff _ _).mpr rfl, (cmpDescNaLast_eq_iff _ _).mpr rfl⟩
    · left
      exact cmpDescNaLast_some_lt.mpr h
  | some _, Option.none => Or.inl rfl
  | Option.none, some _ => Or.inr (Or.inl rfl)
  | Option.none, Option.none => Or.inr (Or.inr ⟨rfl, rfl⟩)

theorem cntLE_of_eq {a b : Work} (h : cmpDescNaLast a.ratings_count b.ratings_count = .eq) :
    cntLE a b = true := by
  unfold cntLE
  rw [h]

theorem cntLE_total (a b : Work) : cntLE a b = true ∨ cntLE b a = true := by
  rcases cmpDescNaLast_total a.ratings_count b.ratings_count with h | h | ⟨h, h'⟩
  · left
    unfold cntLE
    rw [h]
  · right
    unfold cntLE
    rw [h]
  · exact Or.inl (cntLE_of_eq h)

theorem cntLE_trans {a b c : Work} (h1 : cntLE a b = true) (h2 : cntLE b c = true) :
    cntLE a c = true := by
  unfold cntLE at *
  cases hab : cmpDescNaLast a.ratings_count b.ratings_count with
  | gt => rw [hab] at h1; cases h1
  | lt =>
    cases hbc : cmpDescNaLast b.ratings_count c.ratings_count with
    | gt => rw [hbc] at h2; cases h2
    | lt => rw [cmpDescNaLast_lt_trans hab hbc]
    | eq =>
      have he := (cmpDescNaLast_eq_iff _ _).mp hbc
      rw [← he, hab]
  | eq =>
    have he := (cmpDescNaLast_eq_iff _ _).mp hab
    rw [he]
    exact h2

theorem workLE_total : ∀ a b : Work, (workLE a b || workLE b a) = true := by
  intro a b
  unfold workLE
  rcases cmpDescNaLast_total a.avg_rating b.avg_rating with h | h | ⟨h, h'⟩
  · rw [h]
    rfl
  · rw [h]
    simp
  · rw [h, h']
    simp only [Bool.or_eq_true]
    rcases cntLE_total a b with hc | hc
    · exact Or.inl hc
    · exact Or.inr hc

theorem workLE_trans : ∀ a b c : Work, workLE a b = true → workLE b c = true →
    workLE a c = true := by
  intro a b c h1 h2
  unfold workLE at *
  cases hab : cmpDescNaLast a.avg_rating b.avg_rating with
  | gt => rw [hab] at h1; cases h1
  | lt =>
    cases hbc : cmpDescNaLast b.avg_rating c.avg_rating with
    | gt => rw [hbc] at h2; cases h2
    | lt => rw [cmpDescNaLast_lt_trans hab hbc]
    | eq =>
      have he := (cmpDescNaLast_eq_iff _ _).mp hbc
      rw [← he, hab]
  | eq =>
    have he := (cmpDescNaLast_eq_iff _ _).mp hab
    rw [hab] at h1
    cases hbc : cmpDescNaLast b.avg_rating c.avg_rating with
    | gt => rw [hbc] at h2; cases h2
    | lt => rw [he, hbc]
    | eq =>
      rw [hbc] at h2
      rw [he, hbc]
      exact cntLE_trans h1 h2

/-- The row order, read off on rows whose key fields are present: average
rating descending, rating count descending as tiebreak. -/
theorem workLE_some {a b : Work} {x y : ℚ} {cx cy : Int}
    (hax : a.avg_rating = some x) (hby : b.avg_rating = some y)
    (hacx : a.ratings_count = some cx) (hbcy : b.ratings_count = some cy) :
    workLE a b = true ↔ (y < x ∨ (x = y ∧ cy ≤ cx)) := by
  unfold workLE cntLE
  rw [hax, hby, hacx, hbcy]
  cases hc : cmpDescNaLast (some x) (some y) with
  | lt =>
    have hlt := cmpDescNaLast_some_lt.mp hc
    exact iff_of_true rfl (Or.inl hlt)
  | gt =>
    have hgt := cmpDescNaLast_some_gt.mp hc
    refine iff_of_false (by simp) ?_
    rintro (h | ⟨h, -⟩)
    · exact absurd h (lt_asymm hgt)
    · exact absurd (h ▸ hgt) (lt_irrefl _)
  | eq =>
    have hxy : x = y := by simpa using (cmpDescNaLast_eq_iff (some x) (some y)).mp hc
    cases hcc : cmpDescNaLast (some cx) (some cy) with
    | lt =>
      have hlt := cmpDescNaLast_some_lt.mp hcc
      exact iff_of_true rfl (Or.inr ⟨hxy, le_of_lt hlt⟩)
    | gt =>
      have hgt := cmpDescNaLast_some_gt.mp hcc
      refine iff_of_false (by simp) ?_
      rintro (h | ⟨-, h⟩)
      · exact absurd (hxy ▸ h) (lt_irrefl _)
      · exact absurd hgt (not_lt.mpr h)
    | eq =>
      have hcxy : cx = cy := by simpa using (cmpDescNaLast_eq_iff (some cx) (some cy)).mp hcc
      exact iff_of_true rfl (Or.inr ⟨hxy, le_of_eq hcxy.symm⟩)

/-- Rows with equal sort keys compare as equal (both ways). -/
theorem workLE_of_eq_keys {a b : Work} (h1 : a.avg_rating = b.avg_rating)
    (h2 : a.ratings_count = b.ratings_count) : workLE a b = true := by
  unfold workLE cntLE
  rw [h1, h2]
  rw [show cmpDescNaLast b.avg_rating b.avg_rating = .eq from
    (cmpDescNaLast_eq_iff _ _).mpr rfl]
  rw [show cmpDescNaLast b.ratings_count b.ratings_count = .eq from
    (cmpDescNaLast_eq_iff _ _).mpr rfl]

theorem pandasSample_length {l : List Work} {ridx : List Nat}
    (h : ∀ i ∈ ridx, i < l.length) : (pandasSample l ridx).length = ridx.length := by
  unfold pandasSample
  induction ridx with
  | nil => rfl
  | cons i is ih =>
    simp only [List.filterMap_cons]
    rw [List.getElem?_eq_getElem (h i (by simp))]
    simp only [List.length_cons]
    rw [ih (fun j hj => h j (by simp [hj]))]

theorem pandasSample_mem {l : List Work} {ridx : List Nat} {w : Work}
    (h : w ∈ pandasSample l ridx) : w ∈ l := by
  unfold pandasSample at h
  simp only [List.mem_filterMap] at h
  obtain ⟨i, -, hw⟩ := h
  rw [List.getElem?_eq_some] at hw
  obtain ⟨hi, rfl⟩ := hw
  exact List.getElem_mem hi

/-! ## Error behaviour of the filter pass (dynamic cells)

Pandas evaluates each predicate over whole columns; a cell of an unexpected
type (a string where a number is compared) raises a TypeError.  The whole
pass sits in one `try` block: the `except` arm reports the failure and calls
`st.stop()`, so nothing is displayed.  To state this, the pass is embedded
once more over dynamically typed cells: each fallible predicate returns
`Except`, the pass chains them, and the display layer shows nothing on an
error.  (The surprise sample permutes and truncates the succeeding result
and adds no failure mode, so it is left out of this model.) -/

namespace Dyn

/-- A cell value: a number, a string, or NaN. -/
inductive PVal where
  | num (q : ℚ)
  | str (s : String)
  | null
deriving DecidableEq

/-- One catalog row over dynamic cells. -/
structure DRow where
  work_id : Int
  original_title : PVal
  author : PVal
  genres : PVal
  avg_rating : PVal
  ratings_count : PVal
  text_reviews_count : PVal
  original_publication_year : PVal
  num_pages : PVal
  description : PVal
deriving DecidableEq

/-- `cell >= t`: NaN compares false, a string cell raises. -/
def pvGE (v : PVal) (t : ℚ) : Except String Bool :=
  match v with
  | .num q => .ok (decide (t ≤ q))
  | .null => .ok false
  | .str _ => .error "TypeError"

/-- `cell > t`: NaN compares false, a string cell raises. -/
def pvGT (v : PVal) (t : ℚ) : Except String Bool :=
  match v with
  | .num q => .ok (decide (t < q))
  | .null => .ok false
  | .str _ => .error "TypeError"

/-- `.str.contains(pat, case=False, na=False)` with the pattern read as a
literal: a non-string cell matches nothing and does not raise. -/
def pvContainsCI (v : PVal) (pat : String) : Bool :=
  match v with
  | .str s => containsStrCI s pat
  | _ => false

/-- Genre step over a dynamic cell: `fillna('')` then `g in x`; `in` applied
to a numeric cell raises. -/
def genrePredE (spec : FilterSpec) (r : DRow) : Except String Bool :=
  match r.genres with
  | .null => .ok (spec.selected_genres.any (fun g => containsStr "" g))
  | .str s => .ok (spec.selected_genres.any (fun g => containsStr s g))
  | .num _ => .error "TypeError"

/-- `isin` never raises; a non-string cell is in no author list. -/
def authorPred (spec : FilterSpec) (r : DRow) : Bool :=
  match r.author with
  | .str a => decide (a ∈ spec.selected_authors)
  | _ => false

def titlePred (spec : FilterSpec) (r : DRow) : Bool :=
  pvContainsCI r.original_title spec.search_title

def avgPredE (spec : FilterSpec) (r : DRow) : Except String Bool :=
  pvGE r.avg_rating spec.min_rating

def yearPredE (spec : FilterSpec) (r : DRow) : Except String Bool :=
  if spec.year_range = (spec.min_year_slider, spec.max_year) then
    match r.original_publication_year with
    | .null => .ok true
    | .num y => .ok ((decide ((spec.year_range.1 : ℚ) ≤ y) &&
        decide (y ≤ (spec.year_range.2 : ℚ))) || decide (y < (spec.min_year_slider : ℚ)))
    | .str _ => .error "TypeError"
  else
    match r.original_publication_year with
    | .null => .ok false
    | .num y => .ok (decide ((spec.year_range.1 : ℚ) ≤ y) &&
        decide (y ≤ (spec.year_range.2 : ℚ)))
    | .str _ => .error "TypeError"

def pagesPredE (spec : FilterSpec) (r : DRow) : Except String Bool :=
  match r.num_pages with
  | .null => .ok true
  | .num p => .ok (decide ((spec.page_range.1 : ℚ) ≤ p) &&
      decide (p ≤ (spec.page_range.2 : ℚ)))
  | .str _ => .error "TypeError"

def cntPredE (spec : FilterSpec) (r : DRow) : Except String Bool :=
  pvGE r.ratings_count (spec.min_ratings : ℚ)

def inclPred (spec : FilterSpec) (r : DRow) : Bool :=
  pvContainsCI r.original_title spec.include_keyword ||
    pvContainsCI r.description spec.include_keyword

def exclPred (spec : FilterSpec) (r : DRow) : Bool :=
  !pvContainsCI r.original_title spec.exclude_keyword &&
    !pvContainsCI r.description spec.exclude_keyword

def revPredE (_spec : FilterSpec) (r : DRow) : Except String Bool :=
  pvGT r.text_reviews_count 0

/-- A fallible filter: the first raising row aborts the whole step, as the
column-wise pandas evaluation does. -/
def filterE (p : DRow → Except String Bool) : List DRow → Except String (List DRow)
  | [] => .ok []
  | r :: rs =>
    match p r with
    | .error e => .error e
    | .ok b =>
      match filterE p rs with
      | .error e => .error e
      | .ok rest => .ok (if b then r :: rest else rest)

/-- Sort key of a dynamic cell.  Rows that reach the sort have passed the
numeric threshold predicates, so their key cells are numbers; a string key,
which would make pandas raise, cannot occur there, and is conflated with NaN
only in unreachable states. -/
def pvRatKey (v : PVal) : Option ℚ :=
  match v with
  | .num q => some q
  | _ => Option.none

def dynLE (a b : DRow) : Bool :=
  match cmpDescNaLast (pvRatKey a.avg_rating) (pvRatKey b.avg_rating) with
  | .lt => true
  | .gt => false
  | .eq =>
    match cmpDescNaLast (pvRatKey a.ratings_count) (pvRatKey b.ratings_count) with
    | .gt => false
    | _ => true

/-- The whole pass inside the `try` block: the ten steps in source order,
then the ranking sort; the first failure aborts the pass. -/
def runFilterPass (catalog : List DRow) (spec : FilterSpec) : Except String (List DRow) :=
  match (if spec.selected_genres.isEmpty then Except.ok catalog
      else filterE (genrePredE spec) catalog) with
  | .error e => .error e
  | .ok f1 =>
    let f2 := if spec.selected_authors.isEmpty then f1 else f1.filter (authorPred spec)
    let f3 := if spec.search_title = "" then f2 else f2.filter (titlePred spec)
    match filterE (avgPredE spec) f3 with
    | .error e => .error e
    | .ok f4 =>
      match filterE (yearPredE spec) f4 with
      | .error e => .error e
      | .ok f5 =>
        match filterE (pagesPredE spec) f5 with
        | .error e => .error e
        | .ok f6 =>
          match filterE (cntPredE spec) f6 with
          | .error e => .error e
          | .ok f7 =>
            let f8 := if spec.include_keyword = "" then f7 else f7.filter (inclPred spec)
            let f9 := if spec.exclude_keyword = "" then f8 else f8.filter (exclPred spec)
            match (if spec.only_with_reviews then filterE (revPredE spec) f9
                else Except.ok f9) with
            | .error e => .error e
            | .ok f10 => .ok (f10.mergeSort dynLE)

/-- What the page shows: the `except` arm calls `st.stop()`, so an error
displays nothing; otherwise the first `num_books` ranked rows. -/
def displayedResults (catalog : List DRow) (spec : FilterSpec) : List DRow :=
  match runFilterPass catalog spec with
  | .error _ => []
  | .ok rows => rows.take spec.num_books

/-- Every applicable predicate of the pass evaluated successfully to `true`
on `r`. -/
def fullyFiltered (spec : FilterSpec) (r : DRow) : Prop :=
  (¬ spec.selected_genres.isEmpty = true → genrePredE spec r = .ok true) ∧
  (¬ spec.selected_authors.isEmpty = true → authorPred spec r = true) ∧
  (¬ spec.search_title = "" → titlePred spec r = true) ∧
  avgPredE spec r = .ok true ∧
  yearPredE spec r = .ok true ∧
  pagesPredE spec r = .ok true ∧
  cntPredE spec r = .ok true ∧
  (¬ spec.include_keyword = "" → inclPred spec r = true) ∧
  (¬ spec.exclude_keyword = "" → exclPred spec r = true) ∧
  (spec.only_with_reviews = true → revPredE spec r = .ok true)

theorem filterE_ok {p : DRow → Except String Bool} :
    ∀ {l m : List DRow}, filterE p l = .ok m → ∀ r ∈ m, r ∈ l ∧ p r = .ok true := by
  intro l
  induction l with
  | nil =>
    intro m h r hr
    simp only [filterE, Except.ok.injEq] at h
    subst h
    simp at hr
  | cons a as ih =>
    intro m h r hr
    simp only [filterE] at h
    cases hp : p a with
    | error e => rw [hp] at h; cases h
    | ok b =>
      rw [hp] at h
      cases hrest : filterE p as with
      | error e => rw [hrest] at h; cases h
      | ok rest =>
        rw [hrest] at h
        simp only [Except.ok.injEq] at h
        subst h
        cases b with
        | true =>
          rw [if_pos rfl] at hr
          rcases List.mem_cons.mp hr with rfl | hr2
          · exact ⟨List.mem_cons_self _ _, hp⟩
          · obtain ⟨h1, h2⟩ := ih hrest r hr2
            exact ⟨List.mem_cons_of_mem _ h1, h2⟩
        | false =>
          rw [if_neg (by simp)] at hr
          obtain ⟨h1, h2⟩ := ih hrest r hr
          exact ⟨List.mem_cons_of_mem _ h1, h2⟩

theorem filterE_ite_skip_ok {c : Prop} [Decidable c] {p : DRow → Except String Bool}
    {l m : List DRow} (h : (if c then Except.ok l else filterE p l) = .ok m) :
    ∀ r ∈ m, r ∈ l ∧ (¬c → p r = .ok true) := by
  split at h
  case isTrue hc =>
    intro r hr
    simp only [Except.ok.injEq] at h
    subst h
    exact ⟨hr, fun hn => absurd hc hn⟩
  case isFalse hc =>
    intro r hr
    obtain ⟨h1, h2⟩ := filterE_ok h r hr
    exact ⟨h1, fun _ => h2⟩

theorem filterE_ite_app_ok {c : Prop} [Decidable c] {p : DRow → Except String Bool}
    {l m : List DRow} (h : (if c then filterE p l else Except.ok l) = .ok m) :
    ∀ r ∈ m, r ∈ l ∧ (c → p r = .ok true) := by
  split at h
  case isTrue hc =>
    intro r hr
    obtain ⟨h1, h2⟩ := filterE_ok h r hr
    exact ⟨h1, fun _ => h2⟩
  case isFalse hc =>
    intro r hr
    simp only [Except.ok.injEq] at h
    subst h
    exact ⟨hr, fun hcc => absurd hcc hc⟩

end Dyn

/-! ## The claims -/

/-- A neutral specification with no optional constraint active; the year
range equals the session's full default span. -/
def spec0 : FilterSpec :=
  { selected_genres := []
    selected_authors := []
    search_title := ""
    min_rating := 0
    year_range := (1000, 2000)
    min_year_slider := 1000
    max_year := 2000
    page_range := (1, 2000)
    min_ratings := 0
    include_keyword := ""
    exclude_keyword := ""
    only_with_reviews := false
    num_books := 10
    surprise := false }

/-- `spec0` with a narrower active year range than the full default span. -/
def c1spec : FilterSpec :=
  { spec0 with year_range := (1900, 1999), min_year_slider := 1800, max_year := 2020 }

/-- A row with an absent publication year. -/
def workNoYear : Work :=
  { work_id := 1
    original_title := some "A"
    author := some "B"
    genres := some "g"
    avg_rating := some 4
    ratings_count := some 100
    text_reviews_count := some 1
    original_publication_year := Option.none
    num_pages := some 100
    description := some "d"
    image_url := Option.none }

/-- The year predicate as claim C1 words it: kept iff the year is in the
inclusive range or absent (absent always passes, whatever range is active),
with the additional below-minimum case on the full default span. -/
def yearKeptClaimed (spec : FilterSpec) (w : Work) : Bool :=
  match w.original_publication_year with
  | Option.none => true
  | some y => (decide (spec.year_range.1 ≤ y) && decide (y ≤ spec.year_range.2)) ||
      (decide (spec.year_range = (spec.min_year_slider, spec.max_year)) &&
        decide (y < spec.min_year_slider))

/-- C1, counterexample: with an active range narrower than the full default
span, the code drops a row whose year is absent, while the claim as stated
keeps it (it says an absent year always passes). -/
theorem c1_year_filter_counterexample :
    yearKept c1spec workNoYear = false ∧ yearKeptClaimed c1spec workNoYear = true := by
  constructor
  · rfl
  · rfl

/-- C1 (amended): a row passes the year filter iff its year is present and
inside the inclusive active range, or the active range equals the full
default span and the year is absent or lies below the catalog's minimum
observed positive year.  (Absent years pass only on the full default span.) -/
theorem c1_year_filter_amended :
    ∀ (spec : FilterSpec) (w : Work),
      yearKept spec w = true ↔
        ((∃ y, w.original_publication_year = some y ∧
            spec.year_range.1 ≤ y ∧ y ≤ spec.year_range.2) ∨
          (spec.year_range = (spec.min_year_slider, spec.max_year) ∧
            (w.original_publication_year = Option.none ∨
              ∃ y, w.original_publication_year = some y ∧ y < spec.min_year_slider))) := by
  intro spec w
  unfold yearKept
  split
  case isTrue hfull =>
    cases hy : w.original_publication_year with
    | none => simp [hy, hfull]
    | some y =>
      simp only [hy, Bool.or_eq_true, Bool.and_eq_true, decide_eq_true_eq,
        Option.some.injEq, reduceCtorEq, false_or]
      constructor
      · rintro (⟨h1, h2⟩ | h)
        · exact Or.inl ⟨y, rfl, h1, h2⟩
        · exact Or.inr ⟨hfull, y, rfl, h⟩
      · rintro (⟨y', hy', h1, h2⟩ | ⟨-, y', hy', h⟩)
        · cases hy'
          exact Or.inl ⟨h1, h2⟩
        · cases hy'
          exact Or.inr h
  case isFalse hfull =>
    cases hy : w.original_publication_year with
    | none => simp [hy, hfull]
    | some y =>
      simp only [hy, Bool.and_eq_true, decide_eq_true_eq, Option.some.injEq,
        reduceCtorEq, false_or]
      constructor
      · rintro ⟨h1, h2⟩
        exact Or.inl ⟨y, rfl, h1, h2⟩
      · rintro (⟨y', hy', h1, h2⟩ | ⟨hf, -⟩)
        · cases hy'
          exact ⟨h1, h2⟩
        · exact absurd hf hfull

/-- A row with an absent rating count. -/
def workNoCount : Work :=
  { work_id := 2
    original_title := some "A"
    author := some "B"
    genres := some "g"
    avg_rating := some 4
    ratings_count := Option.none
    text_reviews_count := some 1
    original_publication_year := some 1950
    num_pages := some 100
    description := some "d"
    image_url := Option.none }

/-- The rating-count predicate as claim C4 words it: absent treated as 0. -/
def ratingsCountKeptClaimed (spec : FilterSpec) (w : Work) : Bool :=
  decide (spec.min_ratings ≤ w.ratings_count.getD 0)

/-- C4, counterexample: at threshold 0 the code still drops a row whose
rating count is absent (a NaN comparison is false), while the claim as
stated keeps it (absent treated as 0, and 0 ≥ 0). -/
theorem c4_min_ratings_counterexample :
    ratingsCountKept spec0 workNoCount = false ∧
      ratingsCountKeptClaimed spec0 workNoCount = true := by
  constructor
  · rfl
  · decide

/-- C4 (amended): a row passes the minimum-rating-count filter iff its
rating count is present and at least the threshold; a row with an absent
rating count is always dropped, even at threshold 0. -/
theorem c4_min_ratings_amended :
    ∀ (spec : FilterSpec) (w : Work),
      ratingsCountKept spec w = true ↔
        ∃ c, w.ratings_count = some c ∧ spec.min_ratings ≤ c := by
  intro spec w
  unfold ratingsCountKept
  cases hc : w.ratings_count with
  | none => simp [hc]
  | some c => simp [hc]

/-- A review whose body carries the hidden-spoiler marker in upper case. -/
def reviewUpperMarker : Review :=
  { work_id := 1
    rating := 5
    review_text := some "(VIEW SPOILER)[the end]"
    n_votes := Option.none }

/-- C5, counterexample: the code matches the hidden-spoiler marker
case-insensitively (`case=False`), so it excludes a review whose body
carries the marker in upper case; the claim as stated (a literal marker
match) retains that review. -/
theorem c5_spoiler_counterexample :
    filter_reviews_no_spoilers [reviewUpperMarker] = [] ∧
      spoilerMarkedClaimed reviewUpperMarker = false := by
  constructor
  · decide
  · decide

/-- C5 (amended): a review is retained iff it was in the input and its body,
when present, contains neither the hidden-spoiler marker nor the phrase
"spoiler alert", both matched case-insensitively; a review with an absent
body is always retained. -/
theorem c5_spoiler_exclusion_amended :
    ∀ (l : List Review) (r : Review),
      r ∈ filter_reviews_no_spoilers l ↔
        (r ∈ l ∧ ∀ t, r.review_text = some t →
          (containsStrCI t "(view spoiler)[" = false ∧
            containsStrCI t "spoiler alert" = false)) := by
  intro l r
  unfold filter_reviews_no_spoilers
  rw [List.mem_filter]
  constructor
  · rintro ⟨h1, h2⟩
    refine ⟨h1, fun t ht => ?_⟩
    simp only [Bool.not_eq_true'] at h2
    unfold spoilerMarked at h2
    rw [ht] at h2
    simpa using h2
  · rintro ⟨h1, h2⟩
    refine ⟨h1, ?_⟩
    simp only [Bool.not_eq_true']
    unfold spoilerMarked
    cases hrt : r.review_text with
    | none => rfl
    | some t =>
      have h := h2 t hrt
      simp [h.1, h.2]

/-- C2: profanity masking replaces every case-insensitive whole-word
occurrence of a denylist term by asterisks of the occurrence's length,
leaves every character outside such occurrences unchanged, preserves the
length, and maps non-string input to the empty string. -/
theorem c2_filter_profanity_masking :
    (∀ s : String,
      (filter_profanity (.pyStr s)).length = s.length ∧
      (∀ i t, occursAt s.data i t = true → ∀ k, k < t.length →
        (filter_profanity (.pyStr s)).data.getD (i + k) ' ' = '*') ∧
      (∀ i, i < s.data.length → coveredAt s.data i = false →
        (filter_profanity (.pyStr s)).data.getD i ' ' = s.data.getD i ' ')) ∧
    filter_profanity .pyOther = "" := by
  refine ⟨fun s => ⟨?_, ?_, ?_⟩, rfl⟩
  · show (scanAux 0 false s.data).length = s.length
    rw [scanAux_length]
    rfl
  · intro i t hocc k hk
    show (scanAux 0 false s.data).getD (i + k) ' ' = '*'
    rw [scanAux_eq_maskSpec]
    have hik : i + k < s.data.length := by
      have := occursAt_le_length hocc
      omega
    rw [maskSpec_getD hik ' ']
    rw [show coveredAt s.data (i + k) = true from
      coveredAt_iff.mpr ⟨i, t, hocc, by omega, by omega⟩]
    rfl
  · intro i hi hcov
    show (scanAux 0 false s.data).getD i ' ' = s.data.getD i ' '
    rw [scanAux_eq_maskSpec, maskSpec_getD hi ' ', hcov]
    rfl

theorem ratingKept_some {spec : FilterSpec} {w : Work} (h : ratingKept spec w = true) :
    ∃ x, w.avg_rating = some x := by
  unfold ratingKept at h
  cases ha : w.avg_rating with
  | none => rw [ha] at h; cases h
  | some x => exact ⟨x, rfl⟩

theorem ratingsCountKept_some {spec : FilterSpec} {w : Work}
    (h : ratingsCountKept spec w = true) : ∃ c, w.ratings_count = some c := by
  unfold ratingsCountKept at h
  cases hc : w.ratings_count with
  | none => rw [hc] at h; cases h
  | some c => exact ⟨c, rfl⟩

/-- C3: with surprise mode off the output is ordered by average rating
descending then rating count descending, and two kept rows with equal keys
keep the relative order they had in the input catalog. -/
theorem c3_ranking_sorted_and_stable :
    ∀ (catalog : List Work) (spec : FilterSpec) (ridx : List Nat),
      spec.surprise = false →
      ((filterPass catalog spec ridx).Pairwise (fun a b =>
        ∃ x y cx cy, a.avg_rating = some x ∧ b.avg_rating = some y ∧
          a.ratings_count = some cx ∧ b.ratings_count = some cy ∧
          (y < x ∨ (x = y ∧ cy ≤ cx)))) ∧
      (∀ a b : Work, [a, b].Sublist catalog →
        keptAll spec a = true → keptAll spec b = true →
        a.avg_rating = b.avg_rating → a.ratings_count = b.ratings_count →
        [a, b].Sublist (filterPass catalog spec ridx)) := by
  intro catalog spec ridx hs
  have hpass : filterPass catalog spec ridx =
      (applyFilters catalog spec).mergeSort workLE := by
    unfold filterPass
    rw [hs]
    simp
  constructor
  · rw [hpass]
    have hsorted := List.sorted_mergeSort workLE_trans workLE_total (applyFilters catalog spec)
    refine List.Pairwise.imp_of_mem ?_ hsorted
    intro a b ha hb hle
    have hka := (mem_applyFilters (List.mem_mergeSort.mp ha)).2
    have hkb := (mem_applyFilters (List.mem_mergeSort.mp hb)).2
    obtain ⟨x, hax⟩ := ratingKept_some (keptAll_parts hka).2.2.2.1
    obtain ⟨y, hby⟩ := ratingKept_some (keptAll_parts hkb).2.2.2.1
    obtain ⟨cx, hacx⟩ := ratingsCountKept_some (keptAll_parts hka).2.2.2.2.2.2.1
    obtain ⟨cy, hbcy⟩ := ratingsCountKept_some (keptAll_parts hkb).2.2.2.2.2.2.1
    exact ⟨x, y, cx, cy, hax, hby, hacx, hbcy,
      (workLE_some hax hby hacx hbcy).mp hle⟩
  · intro a b hab hka hkb he1 he2
    rw [hpass]
    exact List.sublist_mergeSort workLE_trans workLE_total
      (by simp [List.pairwise_cons, workLE_of_eq_keys he1 he2])
      (pair_sublist_applyFilters hab hka hkb)

/-- C3, witness at a concrete catalog and specification. -/
theorem c3_witness :
    (((filterPass [workNoYear] spec0 []).Pairwise (fun a b =>
      ∃ x y cx cy, a.avg_rating = some x ∧ b.avg_rating = some y ∧
        a.ratings_count = some cx ∧ b.ratings_count = some cy ∧
        (y < x ∨ (x = y ∧ cy ≤ cx)))) ∧
    (∀ a b : Work, [a, b].Sublist [workNoYear] →
      keptAll spec0 a = true → keptAll spec0 b = true →
      a.avg_rating = b.avg_rating → a.ratings_count = b.ratings_count →
      [a, b].Sublist (filterPass [workNoYear] spec0 []))) :=
  c3_ranking_sorted_and_stable [workNoYear] spec0 [] rfl

/-- C6: with surprise mode on a non-empty candidate set, the pass returns a
sample of exactly `min(requestedCount, candidateSize)` rows, every one a
member of the candidate set, the drawn positions being distinct (sampling
without replacement). -/
theorem c6_surprise_sampling :
    ∀ (catalog : List Work) (spec : FilterSpec) (ridx : List Nat),
      spec.surprise = true →
      applyFilters catalog spec ≠ [] →
      ridx.Nodup →
      (∀ i ∈ ridx, i < (applyFilters catalog spec).length) →
      ridx.length = min spec.num_books (applyFilters catalog spec).length →
      (filterPass catalog spec ridx).length =
        min spec.num_books (applyFilters catalog spec).length ∧
      ∀ w ∈ filterPass catalog spec ridx, w ∈ applyFilters catalog spec := by
  intro catalog spec ridx hs hne _hnd hbound hlen
  have hlen2 : ((applyFilters catalog spec).mergeSort workLE).length =
      (applyFilters catalog spec).length :=
    (List.mergeSort_perm (applyFilters catalog spec) workLE).length_eq
  have hnemp : ((applyFilters catalog spec).mergeSort workLE).isEmpty = false := by
    cases hh : ((applyFilters catalog spec).mergeSort workLE).isEmpty
    · rfl
    · exfalso
      have hnil := List.isEmpty_iff.mp hh
      exact hne (List.length_eq_zero.mp (by rw [← hlen2, hnil]; rfl))
  have hpass : filterPass catalog spec ridx =
      pandasSample ((applyFilters catalog spec).mergeSort workLE) ridx := by
    simp [filterPass, hs, hnemp]
  constructor
  · rw [hpass, pandasSample_length (by intro i hi; rw [hlen2]; exact hbound i hi), hlen]
  · intro w hw
    rw [hpass] at hw
    exact List.mem_mergeSort.mp (pandasSample_mem hw)

/-- A row every default filter of `spec0` keeps. -/
def workPlain : Work :=
  { work_id := 6
    original_title := some "T"
    author := some "A"
    genres := some "g"
    avg_rating := some 4
    ratings_count := some 100
    text_reviews_count := some 1
    original_publication_year := some 1950
    num_pages := Option.none
    description := Option.none
    image_url := Option.none }

/-- `spec0` with surprise mode on and one requested book. -/
def spec6 : FilterSpec := { spec0 with surprise := true, num_books := 1 }

/-- C6, witness at a concrete catalog, specification and drawn positions. -/
theorem c6_witness :
    (filterPass [workPlain] spec6 [0]).length =
      min spec6.num_books (applyFilters [workPlain] spec6).length ∧
    ∀ w ∈ filterPass [workPlain] spec6 [0], w ∈ applyFilters [workPlain] spec6 :=
  c6_surprise_sampling [workPlain] spec6 [0] rfl (by decide) (by decide)
    (by decide) (by decide)

/-- C7: the pass either fails as a whole — the failure is reported and
nothing is displayed — or succeeds with every returned row having passed
every applicable predicate; a partially filtered set is never returned. -/
theorem c7_filter_atomicity :
    ∀ (catalog : List Dyn.DRow) (spec : FilterSpec),
      (∃ e, Dyn.runFilterPass catalog spec = .error e ∧
        Dyn.displayedResults catalog spec = []) ∨
      (∃ rows, Dyn.runFilterPass catalog spec = .ok rows ∧
        Dyn.displayedResults catalog spec = rows.take spec.num_books ∧
        ∀ r ∈ rows, Dyn.fullyFiltered spec r) := by
  intro catalog spec
  cases hrun : Dyn.runFilterPass catalog spec with
  | error e =>
    left
    refine ⟨e, rfl, ?_⟩
    unfold Dyn.displayedResults
    rw [hrun]
  | ok rows =>
    right
    refine ⟨rows, rfl, by unfold Dyn.displayedResults; rw [hrun], ?_⟩
    intro r hr
    simp only [Dyn.runFilterPass] at hrun
    split at hrun
    · exact absurd hrun (by simp)
    rename_i f1 heq1
    split at hrun
    · exact absurd hrun (by simp)
    rename_i f4 heq4
    split at hrun
    · exact absurd hrun (by simp)
    rename_i f5 heq5
    split at hrun
    · exact absurd hrun (by simp)
    rename_i f6 heq6
    split at hrun
    · exact absurd hrun (by simp)
    rename_i f7 heq7
    split at hrun
    · exact absurd hrun (by simp)
    rename_i f10 heq10
    simp only [Except.ok.injEq] at hrun
    subst hrun
    have hr10 : r ∈ f10 := List.mem_mergeSort.mp hr
    obtain ⟨hr9, hrev⟩ := Dyn.filterE_ite_app_ok heq10 r hr10
    obtain ⟨hr8, hexcl⟩ := mem_ite_filter_skip hr9
    obtain ⟨hr7, hincl⟩ := mem_ite_filter_skip hr8
    obtain ⟨hr6, hcnt⟩ := Dyn.filterE_ok heq7 r hr7
    obtain ⟨hr5, hpages⟩ := Dyn.filterE_ok heq6 r hr6
    obtain ⟨hr4, hyear⟩ := Dyn.filterE_ok heq5 r hr5
    obtain ⟨hr3, havg⟩ := Dyn.filterE_ok heq4 r hr4
    obtain ⟨hr2, htitle⟩ := mem_ite_filter_skip hr3
    obtain ⟨hr1, hauthor⟩ := mem_ite_filter_skip hr2
    obtain ⟨-, hgenre⟩ := Dyn.filterE_ite_skip_ok heq1 r hr1
    exact ⟨hgenre, hauthor, htitle, havg, hyear, hpages, hcnt, hincl, hexcl, hrev⟩

/-- C8: with surprise mode off, running the filter pass on its own output
with the same specification returns that output unchanged. -/
theorem c8_filter_idempotent :
    ∀ (catalog : List Work) (spec : FilterSpec) (ridx ridx2 : List Nat),
      spec.surprise = false →
      filterPass (filterPass catalog spec ridx) spec ridx2 =
        filterPass catalog spec ridx := by
  intro catalog spec ridx ridx2 hs
  have hpass : ∀ (c : List Work) (r : List Nat),
      filterPass c spec r = (applyFilters c spec).mergeSort workLE := by
    intro c r
    unfold filterPass
    rw [hs]
    simp
  rw [hpass, hpass]
  have hall : ∀ w ∈ (applyFilters catalog spec).mergeSort workLE,
      keptAll spec w = true :=
    fun w hw => (mem_applyFilters (List.mem_mergeSort.mp hw)).2
  rw [applyFilters_of_all_kept hall]
  exact List.mergeSort_of_sorted (List.sorted_mergeSort workLE_trans workLE_total _)

/-- C8, witness at a concrete catalog and specification. -/
theorem c8_witness :
    filterPass (filterPass [workPlain, workNoYear] spec0 []) spec0 [] =
      filterPass [workPlain, workNoYear] spec0 [] :=
  c8_filter_idempotent [workPlain, workNoYear] spec0 [] [] rfl

/-- C9: the display path masks a present review body unconditionally — the
text shown with the profanity flag off is already the masked body — and the
flag only adds one further application of the masking, which changes
nothing, so both flag settings display the same text. -/
theorem c9_display_masks_unconditionally :
    ∀ body : String,
      displayedReviewText false (some body) =
        truncateForDisplay (filter_profanity (.pyStr body)) ∧
      displayedReviewText true (some body) =
        truncateForDisplay (filter_profanity (.pyStr (filter_profanity (.pyStr body)))) ∧
      displayedReviewText true (some body) = displayedReviewText false (some body) := by
  intro body
  refine ⟨rfl, rfl, ?_⟩
  show truncateForDisplay (filter_profanity (.pyStr (filter_profanity (.pyStr body)))) =
      truncateForDisplay (filter_profanity (.pyStr body))
  rw [filter_profanity_idem]

/-- A row whose genre cell is absent. -/
def workNoGenres : Work :=
  { work_id := 3
    original_title := Option.none
    author := Option.none
    genres := Option.none
    avg_rating := Option.none
    ratings_count := Option.none
    text_reviews_count := Option.none
    original_publication_year := Option.none
    num_pages := Option.none
    description := Option.none
    image_url := Option.none }

/-- C10: when some row's genre cell is absent, the genre extractor hands
later operations a table that differs from its input — every absent genre
cell has been replaced in place by the empty string. -/
theorem c10_extract_all_genres_mutates :
    ∀ df : List Work,
      (∃ w ∈ df, w.genres = Option.none) →
      (extract_all_genres df).2 ≠ df ∧
      ∀ i : Nat, ((extract_all_genres df).2)[i]? =
        (df[i]?).map (fun w => { w with genres := some (w.genres.getD "") }) := by
  rintro df ⟨w, hw, hnone⟩
  have hsnd : (extract_all_genres df).2 =
      df.map (fun w => { w with genres := some (w.genres.getD "") }) := rfl
  constructor
  · rw [hsnd]
    intro heq
    obtain ⟨i, hi⟩ := List.getElem?_of_mem hw
    have h1 : (df.map (fun w => { w with genres := some (w.genres.getD "") }))[i]? =
        some { w with genres := some (w.genres.getD "") } := by
      rw [List.getElem?_map, hi]
      rfl
    rw [heq, hi] at h1
    injection h1 with h1
    have hg := congrArg Work.genres h1
    rw [hnone] at hg
    exact Option.noConfusion hg
  · intro i
    rw [hsnd, List.getElem?_map]

/-- C10, witness at a concrete one-row catalog. -/
theorem c10_witness :
    (extract_all_genres [workNoGenres]).2 ≠ [workNoGenres] ∧
    ∀ i : Nat, ((extract_all_genres [workNoGenres]).2)[i]? =
      ([workNoGenres][i]?).map (fun w => { w with genres := some (w.genres.getD "") }) :=
  c10_extract_all_genres_mutates [workNoGenres] ⟨workNoGenres, by simp, rfl⟩

end BookVoyage
